import Mathlib

/-!
Verification of the spotify-itunes-linker resolution/matching pipeline.

The TypeScript route (src/app/api/playlist/route.ts) is shallowly embedded:
pure helpers become Lean functions on strings (represented as lists of
characters where recursion is needed), and every outbound network call is
replaced by an explicit environment parameter that supplies the outcome the
network would have produced.  JavaScript regular expressions are embedded as
specialised scanners that mirror the semantics of the concrete patterns in
the source (greedy character classes, case-insensitive literals, global
scanning that advances one position on failure and resumes after each match).
JavaScript truthiness on strings and numbers (empty string and zero are
falsy) is folded in explicitly at each use site.  Character case mapping is
modelled for ASCII, which covers every literal the route manipulates.
-/

namespace Spotify

/-! ## Character classes used by the regular expressions in the route -/

/-- JavaScript regexp white-space class (the set matched by a backslash-s). -/
def jsWs (c : Char) : Bool :=
  let n := c.toNat
  n = 32 || n = 9 || n = 10 || n = 11 || n = 12 || n = 13 ||
  n = 0xA0 || n = 0x1680 || (0x2000 ≤ n && n ≤ 0x200A) ||
  n = 0x2028 || n = 0x2029 || n = 0x202F || n = 0x205F || n = 0x3000 || n = 0xFEFF

/-- JavaScript line terminators, the characters a dot does not match. -/
def isLineTerm (c : Char) : Bool :=
  let n := c.toNat
  n = 10 || n = 13 || n = 0x2028 || n = 0x2029

def isAsciiDigit (c : Char) : Bool := '0' ≤ c && c ≤ '9'

def isAsciiAlnum (c : Char) : Bool :=
  ('a' ≤ c && c ≤ 'z') || ('A' ≤ c && c ≤ 'Z') || isAsciiDigit c

/-- JavaScript word-character class backslash-w, used by word boundaries. -/
def isWordChar (c : Char) : Bool := isAsciiAlnum c || c = '_'

/-! ## Basic string operations of the JavaScript standard library -/

/-- `String.prototype.toLowerCase`, modelled for ASCII. -/
def jsToLower (s : String) : String := String.mk (s.toList.map Char.toLower)

/-- `String.prototype.toUpperCase`, modelled for ASCII. -/
def jsToUpper (s : String) : String := String.mk (s.toList.map Char.toUpper)

/-- Does `sub` occur at the front of `hay`? -/
def listStarts : List Char → List Char → Bool
  | _, [] => true
  | [], _ :: _ => false
  | h :: hs, s :: ss => h = s && listStarts hs ss

/-- Does `sub` occur anywhere inside `hay`? -/
def listContains : List Char → List Char → Bool
  | [], sub => sub.isEmpty
  | h :: t, sub => listStarts (h :: t) sub || listContains t sub

/-- `String.prototype.includes`: substring containment. -/
def jsIncludes (hay sub : String) : Bool := listContains hay.toList sub.toList

/-- `String.prototype.trim` (trims the same white-space set as jsWs). -/
def jsTrimList (l : List Char) : List Char :=
  ((l.dropWhile jsWs).reverse.dropWhile jsWs).reverse

def jsTrim (s : String) : String := String.mk (jsTrimList s.toList)

/-- `Array.prototype.join(sep)` on a list of strings. -/
def jsJoin (sep : String) : List String → String
  | [] => ""
  | [a] => a
  | a :: b :: rest => a ++ sep ++ jsJoin sep (b :: rest)

/-- `String.prototype.split(sep)` for a one-character separator. -/
def jsSplitChar (sep : Char) : List Char → List (List Char)
  | [] => [[]]
  | c :: rest =>
    if c = sep then [] :: jsSplitChar sep rest
    else
      match jsSplitChar sep rest with
      | [] => [[c]]
      | h :: t => (c :: h) :: t

/-- `artist.split(",")[0]`: the characters before the first comma. -/
def jsBeforeComma (s : String) : String :=
  String.mk (s.toList.takeWhile (fun c => c ≠ ','))

/-- Case-insensitive literal match: consume `pat` from the front of the
input (comparing lower-cased characters, as the `i` regexp flag does for
ASCII) and return the remaining input. -/
def matchCI : List Char → List Char → Option (List Char)
  | [], l => some l
  | _ :: _, [] => none
  | p :: ps, c :: cs => if p.toLower = c.toLower then matchCI ps cs else none

/-- Generic first-match scanner: try an attempt at every position from left
to right (advancing one character on failure, as a regexp engine does). -/
def scanFirst {α : Type} (att : List Char → Option α) : List Char → Option α
  | [] => none
  | c :: rest =>
    match att (c :: rest) with
    | some x => some x
    | none => scanFirst att rest

/-! ## Text Normalizer: `cleanTrackTitleForSearch`

Embeds the five chained `replace` calls.  Each scanner mirrors the JS
regexp semantics of the concrete pattern, including word boundaries, the
behaviour of `.` and `$` (no `m`/`s` flags), and global versus first-match
replacement. -/

/-- First replace: drop `(...)` and `[...]` segments (an opener, a greedy
run of non-closers, then one closer; a closer of either kind terminates).
One pass with a mode flag: an opener is consumed exactly when some closer
occurs later, matching the regexp, which fails at an opener only when no
closer follows anywhere. -/
def sbGo (inside : Bool) : List Char → List Char
  | [] => []
  | c :: rest =>
    if inside then
      if c = ')' || c = ']' then sbGo false rest else sbGo true rest
    else if (c = '(' || c = '[') && rest.any (fun d => d = ')' || d = ']') then
      ' ' :: sbGo true rest
    else c :: sbGo false rest

/-- Second replace: first match of whitespace-hyphen-whitespace followed by
dot-star and end-of-input, replaced by a single space.  Since `.` does not
match line terminators and `$` is the end of input, the pattern matches at
a position only when no line terminator follows the separator. -/
def dropDashTail : List Char → List Char
  | [] => []
  | c :: rest =>
    match rest with
    | d :: e :: tail =>
      if jsWs c && d = '-' && jsWs e && tail.all (fun x => !isLineTerm x) then
        [' ']
      else c :: dropDashTail rest
    | _ => c :: dropDashTail rest

def yearDigits (a b c d : Char) : Bool :=
  ((a = '2' && b = '0') || (a = '1' && b = '9')) && isAsciiDigit c && isAsciiDigit d

/-- Third replace (global): bare 4-digit year tokens 19xx/20xx delimited by
word boundaries, each replaced by a space.  `prevWord` tracks whether the
previous character of the original string is a word character. -/
def dropYearsGo (prevWord : Bool) : List Char → List Char
  | a :: b :: c :: d :: rest =>
    if yearDigits a b c d && !prevWord &&
        (match rest with | [] => true | x :: _ => !isWordChar x) then
      ' ' :: dropYearsGo true rest
    else a :: dropYearsGo (isWordChar a) (b :: c :: d :: rest)
  | a :: rest => a :: dropYearsGo (isWordChar a) rest
  | [] => []

/-- The keyword alternation of the fourth replace, in the engine try-order
(remaster with optional ed expands to remastered then remaster). -/
def kwList : List (List Char) :=
  ["remastered", "remaster", "remix", "live", "mono", "stereo", "edit",
   "version", "deluxe", "spatial", "atmos"].map String.toList

/-- Does the keyword pattern (with trailing word boundary, dot-star and end
anchor) match starting exactly at this position? -/
def kwMatchAt (l : List Char) : Bool :=
  kwList.any (fun kw =>
    match matchCI kw l with
    | some rest =>
      (match rest with | [] => true | x :: _ => !isWordChar x) &&
        rest.all (fun x => !isLineTerm x)
    | none => false)

/-- Fourth replace: from the first boundary-delimited keyword through the
end of input, replaced by a single space. -/
def dropKwGo (prevWord : Bool) : List Char → List Char
  | [] => []
  | c :: rest =>
    if !prevWord && kwMatchAt (c :: rest) then [' ']
    else c :: dropKwGo (isWordChar c) rest

/-- Fifth replace (global): each maximal white-space run becomes one space. -/
def collapseWsGo (prevWs : Bool) : List Char → List Char
  | [] => []
  | c :: rest =>
    if jsWs c then
      if prevWs then collapseWsGo true rest else ' ' :: collapseWsGo true rest
    else c :: collapseWsGo false rest

/-- `cleanTrackTitleForSearch` from the route: the five replaces then trim. -/
def cleanTrackTitleForSearch (raw : String) : String :=
  let t := sbGo false raw.toList
  let t := dropDashTail t
  let t := dropYearsGo false t
  let t := dropKwGo false t
  let t := jsTrimList (collapseWsGo false t)
  String.mk t

/-! ## Tokenizer and Similarity Scorer -/

/-- Split on white-space runs and drop empty pieces (the composition of
`split` on a whitespace-plus regexp with `filter(Boolean)`). -/
def fieldsWsGo (cur : List Char) : List Char → List (List Char)
  | [] => if cur.isEmpty then [] else [cur.reverse]
  | c :: rest =>
    if jsWs c then
      if cur.isEmpty then fieldsWsGo [] rest
      else cur.reverse :: fieldsWsGo [] rest
    else fieldsWsGo (c :: cur) rest

/-- `normalizeTokens` from the route: lower-case, delete straight and curly
apostrophes, replace every character outside lower-alnum/whitespace/hyphen
by a space, split on whitespace, drop empties. -/
def normalizeTokens (s : String) : List String :=
  let l := (jsToLower s).toList
  let l := l.filter (fun c => !(c = '\'' || c.toNat = 0x2018 || c.toNat = 0x2019))
  let l := l.map (fun c =>
    if ('a' ≤ c && c ≤ 'z') || isAsciiDigit c || jsWs c || c = '-' then c else ' ')
  (fieldsWsGo [] l).map String.mk

/-- The two penalty alternations, as substring tests (regexp `test` with a
plain alternation of literals is containment of some alternative). -/
def negWords : List String := ["remix", "mix", "cover", "tribute", "edit", "karaoke"]

def liveWords : List String := ["live", "concert"]

/-- `similarityScore` from the route, with the score accumulation embedded
as folds in the order the statements execute. -/
def similarityScore (title artist url : String) : Int :=
  let u := jsToLower url
  let artistMain := jsBeforeComma artist
  let aTokens := normalizeTokens artistMain
  let tTokens := normalizeTokens title
  let score : Int := 0
  let score := aTokens.foldl (fun s tok => if jsIncludes u tok then s + 2 else s) score
  let score := tTokens.foldl (fun s tok => if jsIncludes u tok then s + 1 else s) score
  let score := if negWords.any (fun w => jsIncludes u w) then score - 3 else score
  let score := if liveWords.any (fun w => jsIncludes u w) then score - 1 else score
  let score := if jsIncludes u ".bandcamp.com/track/" then score + 2 else score
  let artistSlug := jsJoin "-" aTokens
  let score :=
    if artistSlug ≠ "" && jsIncludes u (artistSlug ++ ".bandcamp.com") then score + 3
    else score
  score

/-! ## encodeURIComponent -/

/-- Upper-case hexadecimal digit, as percent-encoding produces. -/
def hexDigit (n : Nat) : Char :=
  if n < 10 then Char.ofNat (48 + n) else Char.ofNat (55 + n)

/-- UTF-8 bytes of a code point (as natural numbers below 256). -/
def utf8Bytes (n : Nat) : List Nat :=
  if n < 0x80 then [n]
  else if n < 0x800 then [0xC0 + n / 64, 0x80 + n % 64]
  else if n < 0x10000 then
    [0xE0 + n / 4096, 0x80 + n / 64 % 64, 0x80 + n % 64]
  else
    [0xF0 + n / 262144, 0x80 + n / 4096 % 64, 0x80 + n / 64 % 64, 0x80 + n % 64]

/-- The characters `encodeURIComponent` leaves unescaped. -/
def uriUnescaped (c : Char) : Bool :=
  isAsciiAlnum c || c = '-' || c = '_' || c = '.' || c = '!' || c = '~' ||
  c = '*' || c = '\'' || c = '(' || c = ')'

def encChar (c : Char) : List Char :=
  if uriUnescaped c then [c]
  else ((utf8Bytes c.toNat).map
    (fun b => ['%', hexDigit (b / 16), hexDigit (b % 16)])).flatten

/-- `encodeURIComponent` from the JavaScript standard library. -/
def encodeURIComponent (s : String) : String :=
  String.mk ((s.toList.map encChar).flatten)

/-! ## Bandcamp lookup: `searchBandcamp`

The single outbound fetch of the function is replaced by a `BCOutcome`
parameter: a thrown network error, a non-success HTTP status, or a success
whose body text is the given HTML (a thrown `text()` is folded into the
thrown-fetch case, as both degrade identically). -/

inductive BCOutcome : Type
  | throwErr : BCOutcome
  | notOk : BCOutcome
  | ok : String → BCOutcome
deriving DecidableEq, Repr

/-- The candidate-URL regexp character class (lower/upper letters via the
`i` flag, digits and hyphen). -/
def bcRunChar (c : Char) : Bool :=
  ('a' ≤ c && c ≤ 'z') || ('A' ≤ c && c ≤ 'Z') || isAsciiDigit c || c = '-'

/-- Remainder of a candidate match after the scheme: a nonempty subdomain
run, the literal dot-bandcamp-dot-com-slash-track-slash, and a nonempty
slug run.  Returns the matched length after the scheme.  The greedy runs
cannot backtrack usefully because the literal starts with a dot, which the
class excludes. -/
def bcAfterScheme (r : List Char) : Option Nat :=
  let run1 := r.takeWhile bcRunChar
  if run1.isEmpty then none
  else
    match matchCI ".bandcamp.com/track/".toList (r.drop run1.length) with
    | some r2 =>
      let run2 := r2.takeWhile bcRunChar
      if run2.isEmpty then none else some (run1.length + 20 + run2.length)
    | none => none

/-- Length of a candidate track-URL match starting at this position. -/
def bcMatchAt (l : List Char) : Option Nat :=
  match matchCI "https://".toList l with
  | some r => (bcAfterScheme r).map (fun n => 8 + n)
  | none =>
    match matchCI "http://".toList l with
    | some r => (bcAfterScheme r).map (fun n => 7 + n)
    | none => none

/-- Global scan for every candidate track URL, resuming after each match
and advancing one position on failure.  `fuel` bounds the recursion; one
unit per input character suffices because every step consumes at least one
character, so `extractTrackUrls` below never exhausts it. -/
def extractGo : Nat → List Char → List String
  | 0, _ => []
  | _ + 1, [] => []
  | fuel + 1, c :: rest =>
    match bcMatchAt (c :: rest) with
    | some len => String.mk ((c :: rest).take len) :: extractGo fuel ((c :: rest).drop len)
    | none => extractGo fuel rest

def extractTrackUrls (html : String) : List String :=
  extractGo html.toList.length html.toList

/-- `Array.from(new Set(xs))`: deduplicate keeping first occurrences in
order. -/
def dedupAux (seen : List String) : List String → List String
  | [] => []
  | x :: xs =>
    if seen.contains x then dedupAux seen xs
    else x :: dedupAux (x :: seen) xs

/-- The deduplicated candidate set the route scores for a response body. -/
def bandcampCandidates (html : String) : List String :=
  dedupAux [] (extractTrackUrls html)

/-- The constructed search URL, always returned as fallback. -/
def bandcampSearchUrl (titleRaw artist : String) : String :=
  let title := cleanTrackTitleForSearch titleRaw
  let query := jsTrim (artist ++ " " ++ title)
  "https://bandcamp.com/search?q=" ++ encodeURIComponent query ++ "&item_type=t"

/-- The best-candidate loop of `searchBandcamp`: strict improvement over a
running best, exactly as the for-loop with `s > bestScore` executes. -/
def bestLoop (sc : String → Int) : List String → String → Int → String × Int
  | [], b, bs => (b, bs)
  | m :: rest, b, bs =>
    let s := sc m
    if bs < s then bestLoop sc rest m s else bestLoop sc rest b bs

structure BCResult : Type where
  direct : Option String
  search : String
deriving DecidableEq, Repr

/-- `searchBandcamp` from the route.  Every failure branch returns a null
direct link with the constructed search URL. -/
def searchBandcamp (outcome : BCOutcome) (titleRaw artist : String) : BCResult :=
  let title := cleanTrackTitleForSearch titleRaw
  let searchUrl := bandcampSearchUrl titleRaw artist
  match outcome with
  | .throwErr => ⟨none, searchUrl⟩
  | .notOk => ⟨none, searchUrl⟩
  | .ok html =>
    match bandcampCandidates html with
    | [] => ⟨none, searchUrl⟩
    | m0 :: _ =>
      let bl := bestLoop (fun m => similarityScore title artist m)
        (bandcampCandidates html) m0 (-999)
      if 6 ≤ bl.2 then ⟨some bl.1, searchUrl⟩ else ⟨none, searchUrl⟩

/-! ## Apple / iTunes lookup: `searchITunesLinks`

The fetch and its JSON parse are replaced by an `ITunesOutcome` parameter.
A thrown fetch or a thrown `res.json()` both escape the function (it has no
try/catch), which the `Except` error models. -/

/-- One result object of the iTunes search response; absent JSON fields are
`none`. -/
structure ITunesResult : Type where
  artistName : Option String
  trackName : Option String
  trackId : Option Nat
  collectionId : Option Nat
  trackViewUrl : Option String
  collectionViewUrl : Option String
deriving DecidableEq, Repr

structure ITunesData : Type where
  results : Option (List ITunesResult)
deriving DecidableEq, Repr

inductive ITunesOutcome : Type
  | netThrow : ITunesOutcome
  | notOk : ITunesOutcome
  | badJson : ITunesOutcome
  | ok : ITunesData → ITunesOutcome
deriving DecidableEq, Repr

/-- JavaScript `x || y` on optional strings (empty string is falsy). -/
def jsOrOpt (a b : Option String) : Option String :=
  match a with
  | some s => if s = "" then b else some s
  | none => b

/-- JavaScript truthiness of an optional number (zero and absent are
falsy). -/
def jsTruthyNum : Option Nat → Bool
  | none => false
  | some n => n ≠ 0

/-- `buildITunesStoreCandidates` from the route. -/
def buildITunesStoreCandidates (trackId collectionId : Option Nat) : List String :=
  if jsTruthyNum trackId && jsTruthyNum collectionId then
    [ "itms://itunes.apple.com/WebObjects/MZStore.woa/wa/viewAlbum?i=" ++
        toString (trackId.getD 0) ++ "&id=" ++ toString (collectionId.getD 0) ++
        "&uo=4&app=itunes",
      "itms://itunes.apple.com/album/id" ++ toString (collectionId.getD 0) ++
        "?i=" ++ toString (trackId.getD 0) ++ "&uo=4&app=itunes",
      "itms://itunes.apple.com/WebObjects/MZStore.woa/wa/viewSong?i=" ++
        toString (trackId.getD 0) ++ "&uo=4&app=itunes" ]
  else if jsTruthyNum collectionId then
    [ "itms://itunes.apple.com/album/id" ++ toString (collectionId.getD 0) ++
        "?uo=4&app=itunes" ]
  else []

/-- The qualification test of the selection loop: artist name contains the
query artist and track name contains the cleaned title, case-insensitively
(absent names default to the empty string). -/
def itunesQualifies (cleanTitle artist : String) (r : ITunesResult) : Bool :=
  jsIncludes (jsToLower (r.artistName.getD "")) (jsToLower artist) &&
  jsIncludes (jsToLower (r.trackName.getD "")) (jsToLower cleanTitle)

/-- The selection loop of `searchITunesLinks`: break at the first
qualifying result, otherwise remember the first result seen. -/
def pickBestLoop (q : ITunesResult → Bool) :
    Option ITunesResult → List ITunesResult → Option ITunesResult
  | best, [] => best
  | best, r :: rest =>
    if q r then some r
    else pickBestLoop q (match best with | none => some r | some b => some b) rest

structure AppleResult : Type where
  storeCandidates : List String
  web : Option String
deriving DecidableEq, Repr

/-- `searchITunesLinks` from the route.  The request URL construction is
pure and does not influence the outcome parameter; a `.error` value is a
JavaScript exception escaping the function. -/
def searchITunesLinks (outcome : ITunesOutcome) (title artist country : String) :
    Except Unit AppleResult :=
  let cleanTitle := cleanTrackTitleForSearch title
  match outcome with
  | .netThrow => .error ()
  | .notOk => .ok ⟨[], none⟩
  | .badJson => .error ()
  | .ok data =>
    match pickBestLoop (itunesQualifies cleanTitle artist) none (data.results.getD []) with
    | none => .ok ⟨[], none⟩
    | some best =>
      .ok ⟨buildITunesStoreCandidates best.trackId best.collectionId,
           jsOrOpt best.trackViewUrl (jsOrOpt best.collectionViewUrl none)⟩

/-! ## Short-link expansion: `expandSpotifyUrl`

`new URL(input)` is replaced by an oracle returning the parsed record (or
none for a parse failure), and `fetch` by an oracle from the request shape
(method, redirect mode, url; headers carry no information the oracle needs)
to its result: a thrown error, or a response with its final URL, optional
Location header and body text (a thrown `text()` is folded to the empty
body by the `catch` in the source).  The function also returns the list of
requests it issued, so that no-network-call claims are statable. -/

structure URLRec : Type where
  hostname : String
  pathname : String
  href : String
deriving DecidableEq, Repr

structure NetReq : Type where
  method : String
  redirect : String
  url : String
deriving DecidableEq, Repr

inductive NetResult : Type
  | throwErr : NetResult
  | resp : String → Option String → String → NetResult
deriving DecidableEq, Repr

structure ExpandEnv : Type where
  parseURL : String → Option URLRec
  net : NetReq → NetResult

def SHORT_HOSTS : List String :=
  ["spotify.link", "www.spotify.link", "spoti.fi", "link.tospotify.com",
   "spotify.app.link"]

/-- `host.replace(/^www\./, "")`. -/
def stripWww (h : String) : String :=
  if h.startsWith "www." then String.mk (h.toList.drop 4) else h

/-- The anchored native-URI test of `expandSpotifyUrl` (start and end
anchors, case-insensitive literal, one or more alphanumerics). -/
def isNativeUriFull (input : String) : Bool :=
  match matchCI "spotify:playlist:".toList input.toList with
  | some rest => !rest.isEmpty && rest.all isAsciiAlnum
  | none => false

/-- A JavaScript regexp match result as the route consumes it: the full
match and the optional first capture group. -/
structure JsMatch : Type where
  matched : String
  group1 : Option String
deriving DecidableEq, Repr

/-- The fixed literals of the open-spotify URL regexps, named so that
statements about the scanners are stable. -/
def litHttpsSpotify : List Char := "https://open.spotify.com/".toList

def litHttpSpotify : List Char := "http://open.spotify.com/".toList

def litUrlEq : List Char := "url=".toList

def litContentEq : List Char := "content=".toList

/-- Characters admitted inside a bare URL match (not whitespace and not
quote or angle characters). -/
def bareRunChar (c : Char) : Bool :=
  !jsWs c && c ≠ '"' && c ≠ '\'' && c ≠ '<' && c ≠ '>'

/-- Attempt the bare open-spotify URL pattern at one position: the scheme
(https tried before http, as the optional `s` is greedy), the fixed host
and slash, then a nonempty greedy run. -/
def bareAt (l : List Char) : Option (List Char) :=
  match matchCI litHttpsSpotify l with
  | some rest =>
    let run := rest.takeWhile bareRunChar
    if run.isEmpty then none else some (l.take (25 + run.length))
  | none =>
    match matchCI litHttpSpotify l with
    | some rest =>
      let run := rest.takeWhile bareRunChar
      if run.isEmpty then none else some (l.take (24 + run.length))
    | none => none

/-- First match of the bare open-spotify URL regexp (no capture group). -/
def matchBareSpotify (s : String) : Option JsMatch :=
  (scanFirst bareAt s.toList).map (fun m => ⟨String.mk m, none⟩)

/-- Viability of a backtracking stop inside the meta-refresh pattern: at
offset `j` of the non-quote run, the literal `url=` followed by the open
dot spotify dot com prefix and at least one further character. -/
def metaViable (run : List Char) (j : Nat) : Bool :=
  match matchCI litUrlEq (run.drop j) with
  | none => false
  | some after4 =>
    match matchCI litHttpsSpotify after4 with
    | some r => !r.isEmpty
    | none =>
      match matchCI litHttpSpotify after4 with
      | some r => !r.isEmpty
      | none => false

/-- The offset the greedy star backtracks to: the largest viable one. -/
def lastViable (run : List Char) : Option Nat :=
  (List.range (run.length + 1)).reverse.find? (metaViable run)

/-- Attempt the meta-refresh content pattern at one position: the literal
`content=`, one quote, a greedy run of non-quote characters backtracking to
the last viable `url=`, and the capture group running to the end of the
non-quote run. -/
def metaAt (l : List Char) : Option (List Char × List Char) :=
  match matchCI litContentEq l with
  | none => none
  | some rest =>
    match rest with
    | [] => none
    | q :: rest2 =>
      if q = '"' || q = '\'' then
        let run := rest2.takeWhile (fun c => c ≠ '"' && c ≠ '\'')
        match lastViable run with
        | some j => some (l.take (9 + run.length), run.drop (j + 4))
        | none => none
      else none

/-- First match of the meta-refresh content regexp (one capture group). -/
def matchMetaRefresh (s : String) : Option JsMatch :=
  (scanFirst metaAt s.toList).map
    (fun fg => ⟨String.mk fg.1, some (String.mk fg.2)⟩)

/-- JavaScript `a || b` on optional match results. -/
def jsOrMatch (a b : Option JsMatch) : Option JsMatch :=
  match a with
  | some m => some m
  | none => b

/-- `expandSpotifyUrl` from the current route, instrumented with the list
of requests it issues.  The single fetch uses method GET and redirect
follow; `res.url` is adopted when nonempty, otherwise the body is scanned
by the bare-URL regexp first and the meta-refresh regexp second, taking
the capture group when present, else the full match, else the input. -/
def expandSpotifyUrl (env : ExpandEnv) (input : String) : String × List NetReq :=
  if isNativeUriFull input then (input, [])
  else
    match env.parseURL input with
    | none => (input, [])
    | some parsed =>
      let host := jsToLower parsed.hostname
      if !(SHORT_HOSTS.contains host || SHORT_HOSTS.contains (stripWww host)) then
        (input, [])
      else
        let req : NetReq := ⟨"GET", "follow", parsed.href⟩
        match env.net req with
        | .throwErr => (input, [req])
        | .resp finalUrl _ body =>
          if finalUrl ≠ "" then (finalUrl, [req])
          else
            match jsOrMatch (matchBareSpotify body) (matchMetaRefresh body) with
            | none => (input, [req])
            | some mm =>
              match mm.group1 with
              | some g =>
                if g ≠ "" then (g, [req])
                else if mm.matched ≠ "" then (mm.matched, [req])
                else (input, [req])
              | none =>
                if mm.matched ≠ "" then (mm.matched, [req])
                else (input, [req])

/-! ## Playlist-identifier parsers -/

/-- Scan for the first case-insensitive occurrence of a literal followed by
a nonempty alphanumeric run, capturing the run (the shared shape of the
playlist-segment, embed-playlist and unanchored native-URI regexps). -/
def scanLitAlnumGo (lit : List Char) : List Char → Option (List Char)
  | [] => none
  | c :: rest =>
    match matchCI lit (c :: rest) with
    | some after =>
      let run := after.takeWhile isAsciiAlnum
      if run.isEmpty then scanLitAlnumGo lit rest else some run
    | none => scanLitAlnumGo lit rest

def scanLitAlnum (lit s : String) : Option String :=
  (scanLitAlnumGo lit.toList s.toList).map String.mk

/-- The anchored native-URI capture of `parseIdFromUrlOrUri` (start anchor
only, case-insensitive literal, greedy nonempty alphanumeric group). -/
def matchUriAnchored (input : String) : Option String :=
  match matchCI "spotify:playlist:".toList input.toList with
  | some after =>
    let run := after.takeWhile isAsciiAlnum
    if run.isEmpty then none else some (String.mk run)
  | none => none

/-- `parseIdFromUrlOrUri` from the current route.  A `.error` value is a
thrown JavaScript error. -/
def parseIdFromUrlOrUri (parseURL : String → Option URLRec) (input : String) :
    Except Unit String :=
  match matchUriAnchored input with
  | some id => .ok id
  | none =>
    match parseURL input with
    | none => .error ()
    | some url =>
      match scanLitAlnum "/playlist/" url.pathname with
      | some id => .ok id
      | none => .error ()

/-- The element following the first path component equal to `playlist`
(`parts.findIndex` then `parts[idx + 1]`; only the first occurrence is
inspected, and an out-of-range access is undefined). -/
def segAfterPlaylist : List String → Option String
  | [] => none
  | s :: rest => if s = "playlist" then rest.head? else segAfterPlaylist rest

/-- `parsePlaylistId` from the earlier route version (src/unnamed/part_000):
an unanchored native-URI search, then a case-sensitive path split on
slashes taking the component after the first `playlist` component when it
is present and truthy. -/
def parsePlaylistId (parseURL : String → Option URLRec) (input : String) :
    Except Unit String :=
  match scanLitAlnum "spotify:playlist:" input with
  | some id => .ok id
  | none =>
    match parseURL input with
    | none => .error ()
    | some url =>
      let parts := (jsSplitChar '/' url.pathname.toList).map String.mk
      match segAfterPlaylist parts with
      | some nxt => if nxt ≠ "" then .ok nxt else .error ()
      | none => .error ()

/-! ## oEmbed fallback: `parseIdViaOEmbed` -/

inductive OEmbedOutcome : Type
  | throwErr : OEmbedOutcome
  | notOk : OEmbedOutcome
  | ok : String → OEmbedOutcome
deriving DecidableEq, Repr

/-- `parseIdViaOEmbed` from the route, with the fetch and JSON decode
replaced by an outcome oracle keyed by the probed URL; on success the
oracle yields the embed HTML (absent fields folded to the empty string, as
`data?.html ?? ""` does; a thrown fetch or JSON decode is the thrown
case, which the internal catch turns into null). -/
def parseIdViaOEmbed (oembed : String → OEmbedOutcome) (unknownUrl : String) :
    Option String :=
  match oembed unknownUrl with
  | .throwErr => none
  | .notOk => none
  | .ok html =>
    match scanLitAlnum "/embed/playlist/" html with
    | some id => some id
    | none => scanLitAlnum "spotify:playlist:" html

/-! ## Spotify token and track pagination -/

inductive TokenOutcome : Type
  | envMissing : TokenOutcome
  | netThrow : TokenOutcome
  | notOk : TokenOutcome
  | badJson : TokenOutcome
  | ok : String → TokenOutcome
deriving DecidableEq, Repr

/-- `getSpotifyAppToken`: every failure mode is a thrown error. -/
def getSpotifyAppToken : TokenOutcome → Except Unit String
  | .ok t => .ok t
  | _ => .error ()

structure SpotArtist : Type where
  name : String
deriving DecidableEq, Repr

structure SpotTrack : Type where
  name : Option String
  artists : Option (List SpotArtist)
deriving DecidableEq, Repr

structure SpotItem : Type where
  track : Option SpotTrack
deriving DecidableEq, Repr

/-- One page response of the playlist-tracks endpoint: a thrown fetch, a
non-success status (which the source turns into a thrown error), a thrown
JSON decode, or a decoded page with its items (a null item is `none`) and
`next` field. -/
inductive PageOutcome : Type
  | netThrow : PageOutcome
  | notOk : PageOutcome
  | badJson : PageOutcome
  | ok : List (Option SpotItem) → Option String → PageOutcome
deriving DecidableEq, Repr

structure Track : Type where
  title : String
  artist : String
deriving DecidableEq, Repr

/-- The per-item body of the pagination loop: skip a null item or null
track, join artist names with a comma and space, keep the pair when both
title and artist are truthy. -/
def trackItemsLoop : List (Option SpotItem) → List Track → List Track
  | [], acc => acc
  | it :: rest, acc =>
    match it.bind SpotItem.track with
    | none => trackItemsLoop rest acc
    | some track =>
      let artist := jsJoin ", " (((track.artists.getD []).map SpotArtist.name))
      match track.name with
      | some title =>
        if title ≠ "" && artist ≠ "" then trackItemsLoop rest (acc ++ [⟨title, artist⟩])
        else trackItemsLoop rest acc
      | none => trackItemsLoop rest acc

/-- Truthiness of the `next` field: the `while (url)` condition. -/
def nextTruthy : Option String → Bool
  | none => false
  | some s => s ≠ ""

/-- `fetchAllTracks` over the sequence of responses the endpoint returns to
successive requests.  `none` means the loop requested a page beyond the
modelled sequence. -/
def fetchAllTracksGo : List PageOutcome → List Track → Option (Except Unit (List Track))
  | [], _ => none
  | p :: rest, acc =>
    match p with
    | .netThrow => some (.error ())
    | .notOk => some (.error ())
    | .badJson => some (.error ())
    | .ok items next =>
      let acc2 := trackItemsLoop items acc
      if nextTruthy next then fetchAllTracksGo rest acc2 else some (.ok acc2)

def fetchAllTracks (pages : List PageOutcome) : Option (Except Unit (List Track)) :=
  fetchAllTracksGo pages []

/-! ## The POST handler -/

structure Links : Type where
  appleStoreCandidates : List String
  appleWeb : Option String
  bandcamp : Option String
  bandcampSearch : String
deriving DecidableEq, Repr

structure ResultRow : Type where
  title : String
  artist : String
  links : Links
deriving DecidableEq, Repr

inductive PostResponse : Type
  | success : List ResultRow → PostResponse
  | failure : Nat → PostResponse
deriving DecidableEq, Repr

structure PostReq : Type where
  playlistUrl : Option String
  country : Option String
deriving DecidableEq, Repr

/-- The full environment of one handler invocation: every outbound call is
an oracle.  The per-track store oracles are keyed by the track fields that
determine the request. -/
structure PostEnv : Type where
  expand : ExpandEnv
  oembed : String → OEmbedOutcome
  token : TokenOutcome
  pages : List PageOutcome
  itunes : String → String → String → ITunesOutcome
  bc : String → String → BCOutcome

/-- The body of the per-track map inside `Promise.all`: the Apple lookup,
then the Bandcamp lookup, then the row.  An `.error` is a rejected promise
and rejects the whole `Promise.all`. -/
def rowOf (env : PostEnv) (storeCountry : String) (t : Track) :
    Except Unit ResultRow :=
  match searchITunesLinks (env.itunes t.title t.artist storeCountry)
      t.title t.artist storeCountry with
  | .error e => .error e
  | .ok apple =>
    let bc := searchBandcamp (env.bc t.title t.artist) t.title t.artist
    .ok ⟨t.title, t.artist,
      ⟨apple.storeCandidates, jsOrOpt apple.web none, jsOrOpt bc.direct none,
       bc.search⟩⟩

/-- `Promise.all(tracks.map(rowOf))`: rows in order, or the first
rejection. -/
def mapRows (f : Track → Except Unit ResultRow) :
    List Track → Except Unit (List ResultRow)
  | [] => .ok []
  | t :: rest =>
    match f t with
    | .error e => .error e
    | .ok r =>
      match mapRows f rest with
      | .error e => .error e
      | .ok rs => .ok (r :: rs)

/-- The POST handler from the current route.  A 400 is the missing-input
response; every error the outer catch receives is a 500; `none` means the
modelled page sequence was exhausted (the real loop would have kept
fetching). -/
def POST (env : PostEnv) (req : PostReq) : Option PostResponse :=
  match req.playlistUrl with
  | none => some (.failure 400)
  | some pu =>
    if pu = "" then some (.failure 400)
    else
      let expanded := (expandSpotifyUrl env.expand pu).1
      let pid0 := (parseIdFromUrlOrUri env.expand.parseURL expanded).toOption
      let pid :=
        match pid0 with
        | some i => some i
        | none => parseIdViaOEmbed env.oembed (if expanded ≠ "" then expanded else pu)
      match pid with
      | none => some (.failure 500)
      | some _pid =>
        match getSpotifyAppToken env.token with
        | .error _ => some (.failure 500)
        | .ok _tok =>
          match fetchAllTracks env.pages with
          | none => none
          | some (.error _) => some (.failure 500)
          | some (.ok tracks) =>
            let storeCountry :=
              jsToUpper (match req.country with
                | some c => if c ≠ "" then c else "US"
                | none => "US")
            match mapRows (rowOf env storeCountry) tracks with
            | .error _ => some (.failure 500)
            | .ok rows => some (.success rows)

/-! ## Specification-side definitions

The definitions in this section follow the wording of the specification
(or of a claim under test), to be compared with the source-derived
definitions above. -/

/-- The rule-sum form of the similarity score as the specification words
it, with the storefront bonus as the source implements it: plus three when
the slug followed by dot-bandcamp-dot-com occurs anywhere as a substring of
the lower-cased URL. -/
def scoreRules (title artist url : String) : Int :=
  let u := jsToLower url
  let aTokens := normalizeTokens (jsBeforeComma artist)
  let tTokens := normalizeTokens title
  let slug := jsJoin "-" aTokens
  2 * (aTokens.countP (fun tok => jsIncludes u tok) : Int) +
  (tTokens.countP (fun tok => jsIncludes u tok) : Int) -
  (if negWords.any (fun w => jsIncludes u w) then 3 else 0) -
  (if liveWords.any (fun w => jsIncludes u w) then 1 else 0) +
  (if jsIncludes u ".bandcamp.com/track/" then 2 else 0) +
  (if slug ≠ "" && jsIncludes u (slug ++ ".bandcamp.com") then 3 else 0)

/-- Modelled from the claim under test: the host portion of a URL (the
text after the scheme separator up to the first slash, colon, question
mark or hash). -/
def urlHost (u : String) : String :=
  let l := u.toList
  let afterScheme :=
    match matchCI "https://".toList l with
    | some r => r
    | none =>
      match matchCI "http://".toList l with
      | some r => r
      | none => l
  String.mk (afterScheme.takeWhile
    (fun c => c ≠ '/' && c ≠ ':' && c ≠ '?' && c ≠ '#'))

/-- Modelled from the claim under test: the subdomain is the first
dot-separated label of the host. -/
def urlSubdomain (u : String) : String :=
  String.mk ((urlHost u).toList.takeWhile (fun c => c ≠ '.'))

/-- The similarity score as claim C3 states it: identical rules except
that the plus-three bonus requires the URL subdomain to equal the
hyphen-joined artist tokens exactly. -/
def claimedScoreRules (title artist url : String) : Int :=
  let u := jsToLower url
  let aTokens := normalizeTokens (jsBeforeComma artist)
  let tTokens := normalizeTokens title
  let slug := jsJoin "-" aTokens
  2 * (aTokens.countP (fun tok => jsIncludes u tok) : Int) +
  (tTokens.countP (fun tok => jsIncludes u tok) : Int) -
  (if negWords.any (fun w => jsIncludes u w) then 3 else 0) -
  (if liveWords.any (fun w => jsIncludes u w) then 1 else 0) +
  (if jsIncludes u ".bandcamp.com/track/" then 2 else 0) +
  (if slug ≠ "" && urlSubdomain u = slug then 3 else 0)

/-- Modelled from the spec (claim C4): a window-location-href assignment
literal in the body: the property path, an equals sign with optional
spacing, and a quoted string literal, capturing the literal. -/
def windowLocAt (l : List Char) : Option (List Char) :=
  match matchCI "window.location.href".toList l with
  | none => none
  | some rest =>
    let rest := rest.dropWhile jsWs
    match rest with
    | '=' :: rest2 =>
      let rest2 := rest2.dropWhile jsWs
      (match rest2 with
       | q :: rest3 =>
         if q = '"' || q = '\'' then
           some (rest3.takeWhile (fun c => c ≠ q))
         else none
       | [] => none)
    | _ => none

def scanWindowLocation (body : String) : Option String :=
  (scanFirst windowLocAt body.toList).map String.mk

/-- The expansion step exactly as claim C4 describes it (modelled from the
spec, which has no counterpart in the source): a redirect-suppressed HEAD
adopting a Location header, then a redirect-suppressed GET reusing its
Location header, then a body scan for a meta-refresh url parameter, a
window-location assignment literal, and a bare open-spotify URL, in that
order, first match winning; the input on any failure. -/
def expandSpotifyUrlClaimed (env : ExpandEnv) (input : String) : String :=
  if isNativeUriFull input then input
  else
    match env.parseURL input with
    | none => input
    | some parsed =>
      let host := jsToLower parsed.hostname
      if !(SHORT_HOSTS.contains host || SHORT_HOSTS.contains (stripWww host)) then
        input
      else
        match env.net ⟨"HEAD", "manual", parsed.href⟩ with
        | .throwErr => input
        | .resp _ loc _ =>
          match loc with
          | some locUrl => locUrl
          | none =>
            match env.net ⟨"GET", "manual", parsed.href⟩ with
            | .throwErr => input
            | .resp _ loc2 body =>
              match loc2 with
              | some l2 => l2
              | none =>
                match ((matchMetaRefresh body).bind JsMatch.group1 <|>
                    scanWindowLocation body <|>
                    (matchBareSpotify body).map JsMatch.matched) with
                | some r => r
                | none => input

/-- The expansion step as the source actually behaves, worded as the
ordered strategy list of the specification design notes: one
redirect-following GET; adopt the final response URL when nonempty;
otherwise the first successful body scan, bare URL before meta-refresh
capture; otherwise (and on a thrown fetch) the input unchanged. -/
def expandAmended (env : ExpandEnv) (input : String) : String × List NetReq :=
  if isNativeUriFull input then (input, [])
  else
    match env.parseURL input with
    | none => (input, [])
    | some parsed =>
      let host := jsToLower parsed.hostname
      if SHORT_HOSTS.contains host || SHORT_HOSTS.contains (stripWww host) then
        let req : NetReq := ⟨"GET", "follow", parsed.href⟩
        (match env.net req with
         | .throwErr => input
         | .resp finalUrl _ body =>
           if finalUrl = "" then
             match ((matchBareSpotify body).map JsMatch.matched <|>
                 (matchMetaRefresh body).bind JsMatch.group1) with
             | some r => r
             | none => input
           else finalUrl, [req])
      else (input, [])

/-- One item of a page mapped to its track as the enumerator specification
words it: null items and null tracks are skipped, artist names joined with
a comma and space in order, and entries missing a title or artist after
joining are skipped. -/
def itemToTrack (it : Option SpotItem) : Option Track :=
  match it.bind SpotItem.track with
  | none => none
  | some track =>
    let artist := jsJoin ", " ((track.artists.getD []).map SpotArtist.name)
    match track.name with
    | some title =>
      if title ≠ "" && artist ≠ "" then some ⟨title, artist⟩ else none
    | none => none

/-- The tracks one page contributes, in upstream order. -/
def pageTracks (items : List (Option SpotItem)) : List Track :=
  items.filterMap itemToTrack

/-- The enumerator as the specification words it: follow the pagination
cursor until the next field is empty or absent, concatenating the tracks
of each consumed page in upstream order with no deduplication and no
reordering; any failed page fetch fails the enumeration. -/
def specEnumerate : List PageOutcome → Option (Except Unit (List Track))
  | [] => none
  | p :: rest =>
    match p with
    | .ok items next =>
      if nextTruthy next then
        (specEnumerate rest).map (Except.map (fun ts => pageTracks items ++ ts))
      else some (.ok (pageTracks items))
    | _ => some (.error ())

/-- The Apple result built from one selected iTunes result, as the
specification words it. -/
def appleOfResult (r : ITunesResult) : AppleResult :=
  ⟨buildITunesStoreCandidates r.trackId r.collectionId,
   jsOrOpt r.trackViewUrl (jsOrOpt r.collectionViewUrl none)⟩

/-! ## Concrete environments used to instantiate the statements -/

/-- An expansion environment in which URL parsing fails and the network
throws; the native-URI fast path never consults it. -/
def trivialExpandEnv : ExpandEnv := ⟨fun _ => none, fun _ => .throwErr⟩

/-- A world for the expansion scan-order comparison: a short-host URL whose
GET (any request) yields an empty final URL, no Location header, and a body
containing a bare open-spotify URL before a meta-refresh parameter naming a
different one. -/
def scanOrderEnv : ExpandEnv :=
  { parseURL := fun s =>
      if s = "https://spoti.fi/abc" then
        some ⟨"spoti.fi", "/abc", "https://spoti.fi/abc"⟩
      else none,
    net := fun _ =>
      .resp "" none
        "http://open.spotify.com/A content='0;url=http://open.spotify.com/B'" }

/-- A page item carrying exactly one track with one artist. -/
def oneTrackItem (t : Track) : Option SpotItem :=
  some ⟨some ⟨some t.title, some [⟨t.artist⟩]⟩⟩

/-- The row produced for a track when the Apple lookup degrades and the
Bandcamp lookup fails. -/
def failRow (t : Track) : ResultRow :=
  ⟨t.title, t.artist, ⟨[], none, none, bandcampSearchUrl t.title t.artist⟩⟩

/-- The handler environment of the degradation scenarios: a native-URI
request (so expansion and parsing are pure), a valid token, one page with
three tracks, and per-track store oracles as given. -/
def threeTrackEnv (t1 t2 t3 : Track) (it : ITunesOutcome)
    (bc : String → String → BCOutcome) : PostEnv :=
  { expand := trivialExpandEnv,
    oembed := fun _ => .throwErr,
    token := .ok "token",
    pages := [.ok [oneTrackItem t1, oneTrackItem t2, oneTrackItem t3] none],
    itunes := fun _ _ _ => it,
    bc := bc }

def nativeUriReq : PostReq := ⟨some "spotify:playlist:abc123", some "US"⟩

/-- The handler environment of the single-track Apple-absence scenario. -/
def oneTrackEnv : PostEnv :=
  { expand := trivialExpandEnv,
    oembed := fun _ => .throwErr,
    token := .ok "token",
    pages := [.ok [oneTrackItem ⟨"T1", "A1"⟩] none],
    itunes := fun _ _ _ => .notOk,
    bc := fun _ _ => .throwErr }

/-- A URL-parse oracle for the hyphenated-identifier path. -/
def hyphenParseURL : String → Option URLRec := fun s =>
  if s = "https://open.spotify.com/playlist/abc-def" then
    some ⟨"open.spotify.com", "/playlist/abc-def",
      "https://open.spotify.com/playlist/abc-def"⟩
  else none

/-- A URL-parse oracle for the plain alphanumeric-identifier path. -/
def plainParseURL : String → Option URLRec := fun s =>
  if s = "https://open.spotify.com/playlist/ABC123" then
    some ⟨"open.spotify.com", "/playlist/ABC123",
      "https://open.spotify.com/playlist/ABC123"⟩
  else none

/-- Decidable equality for the thrown-or-value results of the parsers. -/
instance : DecidableEq (Except Unit String) := fun a b =>
  match a, b with
  | .ok x, .ok y =>
    if h : x = y then isTrue (by rw [h]) else isFalse (fun hc => h (by cases hc; rfl))
  | .error x, .error y => isTrue (by cases x; cases y; rfl)
  | .ok _, .error _ => isFalse (fun hc => Except.noConfusion hc)
  | .error _, .ok _ => isFalse (fun hc => Except.noConfusion hc)

/-! ## Helper lemmas -/

theorem matchCI_self_append (p rest : List Char) :
    matchCI p (p ++ rest) = some rest := by
  induction p with
  | nil => rfl
  | cons c cs ih => simp [matchCI, ih]

theorem takeWhile_eq_self_of_all {p : Char → Bool} :
    ∀ {l : List Char}, (∀ c ∈ l, p c = true) → l.takeWhile p = l := by
  intro l
  induction l with
  | nil => intro _; rfl
  | cons c cs ih =>
    intro h
    simp only [List.takeWhile_cons]
    rw [h c (by simp), ih (fun d hd => h d (by simp [hd]))]
    simp

theorem foldl_add_if (p : String → Bool) (k : Int) :
    ∀ (l : List String) (init : Int),
      l.foldl (fun s tok => if p tok then s + k else s) init
        = init + k * (l.countP p : Int) := by
  intro l
  induction l with
  | nil => intro init; simp
  | cons a t ih =>
    intro init
    by_cases h : p a = true <;>
      simp [List.countP_cons, h, ih] <;> push_cast <;> ring

/-- The imperative accumulation of `similarityScore` equals the rule sum. -/
theorem similarityScore_eq_scoreRules (title artist url : String) :
    similarityScore title artist url = scoreRules title artist url := by
  simp only [similarityScore, scoreRules]
  rw [foldl_add_if, foldl_add_if]
  split_ifs <;> push_cast <;> ring

/-- The score is bounded below by the sum of the two penalties. -/
theorem similarityScore_lb (title artist url : String) :
    -4 ≤ similarityScore title artist url := by
  rw [similarityScore_eq_scoreRules]
  simp only [scoreRules]
  split_ifs <;> omega

/-! ## Claims C3 and C5 -/

/-- C3, counterexample: at title "song", artist "band" and the URL
`https://xband.bandcamp.com/track/song`, the source score is 8 (the
substring storefront bonus fires for the subdomain `xband`) while the
claimed formula with an exact subdomain-slug match gives 5, so the claimed
formula is not the score the source computes. -/
theorem claim_C3_cex :
    similarityScore "song" "band" "https://xband.bandcamp.com/track/song" ≠
      claimedScoreRules "song" "band" "https://xband.bandcamp.com/track/song" ∧
    similarityScore "song" "band" "https://xband.bandcamp.com/track/song" = 8 ∧
    claimedScoreRules "song" "band" "https://xband.bandcamp.com/track/song" = 5 := by
  decide

/-- C3, amended: the similarity score equals the cumulative sum of the six
rules with every rule always evaluated, where the plus-three storefront
bonus is awarded exactly when the hyphen-joined artist slug followed by
`.bandcamp.com` occurs as a substring of the lower-cased URL (a substring
test, not an exact subdomain match); for title "Song", artist "Band" and
URL `https://band.bandcamp.com/track/song` the total is at least 6. -/
theorem claim_C3 :
    (∀ title artist url,
      similarityScore title artist url = scoreRules title artist url) ∧
    6 ≤ similarityScore "Song" "Band" "https://band.bandcamp.com/track/song" :=
  ⟨similarityScore_eq_scoreRules, by decide⟩

/-- C5, counterexample: the normalizer is not idempotent: cleaning
`a 2019- b` yields `a - b` (the year strips to a space, creating a new
space-hyphen-space separator), and cleaning that again yields `a`. -/
theorem claim_C5_cex :
    cleanTrackTitleForSearch (cleanTrackTitleForSearch "a 2019- b") ≠
      cleanTrackTitleForSearch "a 2019- b" ∧
    cleanTrackTitleForSearch "a 2019- b" = "a - b" ∧
    cleanTrackTitleForSearch "a - b" = "a" := by decide

/-- C5, amended: the normalizer maps "Song (Live) - 2019 Remaster" to
exactly "Song", and re-applying it to this output returns it unchanged;
idempotence does not hold for every input (see the counterexample, where
stripping a year token manufactures a new dash separator). -/
theorem claim_C5 :
    cleanTrackTitleForSearch "Song (Live) - 2019 Remaster" = "Song" ∧
    cleanTrackTitleForSearch
        (cleanTrackTitleForSearch "Song (Live) - 2019 Remaster") =
      cleanTrackTitleForSearch "Song (Live) - 2019 Remaster" := by decide

/-! ## Claim C6: the Bandcamp lookup -/

/-- Invariant of the strict-improvement selection loop: the running score
never decreases, bounds every scanned score, and the final pair is either
the initial one (when nothing improved) or a scanned element achieving the
final score. -/
theorem bestLoop_spec (sc : String → Int) :
    ∀ (l : List String) (b : String) (bs : Int),
      bs ≤ (bestLoop sc l b bs).2 ∧
      (∀ c ∈ l, sc c ≤ (bestLoop sc l b bs).2) ∧
      ((bestLoop sc l b bs).2 = bs ∧ (bestLoop sc l b bs).1 = b ∨
        (bestLoop sc l b bs).1 ∈ l ∧
          sc (bestLoop sc l b bs).1 = (bestLoop sc l b bs).2) := by
  intro l
  induction l with
  | nil => exact fun b bs => ⟨le_refl _, by simp, Or.inl ⟨rfl, rfl⟩⟩
  | cons m rest ih =>
    intro b bs
    simp only [bestLoop]
    by_cases h : bs < sc m
    · rw [if_pos h]
      obtain ⟨h1, h2, h3⟩ := ih m (sc m)
      refine ⟨le_trans (le_of_lt h) h1, ?_, ?_⟩
      · intro c hc
        rcases List.mem_cons.mp hc with rfl | hc
        · exact h1
        · exact h2 c hc
      · rcases h3 with ⟨hs, hb⟩ | ⟨hmem, hsc⟩
        · exact Or.inr ⟨by rw [hb]; exact List.mem_cons_self _ _, by rw [hb, hs]⟩
        · exact Or.inr ⟨List.mem_cons_of_mem _ hmem, hsc⟩
    · rw [if_neg h]
      obtain ⟨h1, h2, h3⟩ := ih b bs
      refine ⟨h1, ?_, ?_⟩
      · intro c hc
        rcases List.mem_cons.mp hc with rfl | hc
        · exact le_trans (not_lt.mp h) h1
        · exact h2 c hc
      · rcases h3 with hl | ⟨hmem, hsc⟩
        · exact Or.inl hl
        · exact Or.inr ⟨List.mem_cons_of_mem _ hmem, hsc⟩

/-- Every branch of the Bandcamp lookup returns the constructed search
URL. -/
theorem searchBandcamp_search (o : BCOutcome) (t a : String) :
    (searchBandcamp o t a).search = bandcampSearchUrl t a := by
  cases o with
  | throwErr => rfl
  | notOk => rfl
  | ok html =>
    simp only [searchBandcamp]
    cases hc : bandcampCandidates html with
    | nil => simp [hc]
    | cons m0 rest =>
      simp only [hc]
      split <;> rfl

/-- C6: the Bandcamp lookup returns a non-null direct link exactly when the
deduplicated candidate set is nonempty and its maximal similarity score
reaches the threshold 6, and then the link is a maximum-scoring candidate;
in every branch the search field is the constructed search URL for the
query of artist and cleaned title. -/
theorem claim_C6 (outcome : BCOutcome) (titleRaw artist : String) :
    (searchBandcamp outcome titleRaw artist).search =
      bandcampSearchUrl titleRaw artist ∧
    (∀ html, outcome = BCOutcome.ok html →
      ((∀ d, (searchBandcamp outcome titleRaw artist).direct = some d →
          d ∈ bandcampCandidates html ∧
          6 ≤ similarityScore (cleanTrackTitleForSearch titleRaw) artist d ∧
          ∀ c ∈ bandcampCandidates html,
            similarityScore (cleanTrackTitleForSearch titleRaw) artist c ≤
              similarityScore (cleanTrackTitleForSearch titleRaw) artist d) ∧
        ((searchBandcamp outcome titleRaw artist).direct = none ↔
          bandcampCandidates html = [] ∨
          ∀ c ∈ bandcampCandidates html,
            similarityScore (cleanTrackTitleForSearch titleRaw) artist c < 6))) ∧
    ((outcome = BCOutcome.throwErr ∨ outcome = BCOutcome.notOk) →
      (searchBandcamp outcome titleRaw artist).direct = none) := by
  refine ⟨searchBandcamp_search _ _ _, ?_, ?_⟩
  · intro html ho
    subst ho
    simp only [searchBandcamp]
    cases hc : bandcampCandidates html with
    | nil => simp [hc]
    | cons m0 rest =>
      simp only [hc]
      obtain ⟨h1, h2, h3⟩ :=
        bestLoop_spec (fun m => similarityScore (cleanTrackTitleForSearch titleRaw) artist m)
          (m0 :: rest) m0 (-999)
      have hmax :
          (bestLoop (fun m => similarityScore (cleanTrackTitleForSearch titleRaw) artist m)
              (m0 :: rest) m0 (-999)).1 ∈ m0 :: rest ∧
          similarityScore (cleanTrackTitleForSearch titleRaw) artist
              (bestLoop (fun m => similarityScore (cleanTrackTitleForSearch titleRaw) artist m)
                (m0 :: rest) m0 (-999)).1 =
            (bestLoop (fun m => similarityScore (cleanTrackTitleForSearch titleRaw) artist m)
              (m0 :: rest) m0 (-999)).2 := by
        rcases h3 with ⟨hs, _⟩ | hr
        · exfalso
          have hm0 := h2 m0 (List.mem_cons_self _ _)
          have hlb := similarityScore_lb (cleanTrackTitleForSearch titleRaw) artist m0
          omega
        · exact hr
      by_cases h6 :
          6 ≤ (bestLoop (fun m => similarityScore (cleanTrackTitleForSearch titleRaw) artist m)
            (m0 :: rest) m0 (-999)).2
      · rw [if_pos h6]
        constructor
        · intro d hd
          simp only [Option.some.injEq] at hd
          subst hd
          exact ⟨hmax.1, by rw [hmax.2]; exact h6, fun c hcm => by rw [hmax.2]; exact h2 c hcm⟩
        · constructor
          · intro hcon; exact absurd hcon (by simp)
          · intro hdisj
            rcases hdisj with hnil | hall
            · exact absurd hnil (by simp)
            · exfalso
              have := hall _ hmax.1
              omega
      · rw [if_neg h6]
        constructor
        · intro d hd; exact absurd hd (by simp)
        · constructor
          · intro _
            refine Or.inr (fun c hcm => ?_)
            have := h2 c hcm
            omega
          · intro _; rfl
  · intro h
    rcases h with rfl | rfl <;> rfl

/-- C6, witness: at a thrown Bandcamp fetch for title "Song" and artist
"Band", the lookup returns the constructed search URL and a null direct
link. -/
theorem claim_C6_witness :
    (searchBandcamp BCOutcome.throwErr "Song" "Band").search =
      bandcampSearchUrl "Song" "Band" ∧
    (searchBandcamp BCOutcome.throwErr "Song" "Band").direct = none :=
  ⟨(claim_C6 BCOutcome.throwErr "Song" "Band").1,
   (claim_C6 BCOutcome.throwErr "Song" "Band").2.2 (Or.inl rfl)⟩

/-! ## Claim C7: the Apple / iTunes selection -/

/-- Once a first result has been remembered, the loop returns the first
qualifying result or that remembered one. -/
theorem pickBestLoop_some (q : ITunesResult → Bool) :
    ∀ (l : List ITunesResult) (b : ITunesResult),
      pickBestLoop q (some b) l = some ((l.find? q).getD b) := by
  intro l
  induction l with
  | nil => intro b; rfl
  | cons r rest ih =>
    intro b
    simp only [pickBestLoop, List.find?]
    by_cases h : q r <;> simp [h, ih]

/-- Started empty, the loop selects the first qualifying result and falls
back to the first result seen. -/
theorem pickBestLoop_none (q : ITunesResult → Bool) :
    ∀ l : List ITunesResult,
      pickBestLoop q none l =
        (match l with
         | [] => none
         | r :: _ => some ((l.find? q).getD r)) := by
  intro l
  cases l with
  | nil => rfl
  | cons r rest =>
    simp only [pickBestLoop, List.find?]
    by_cases h : q r <;> simp [h, pickBestLoop_some]

/-- C7: on a decoded iTunes response the lookup selects the first result
whose artist name contains the query artist and whose track name contains
the cleaned title, both as case-insensitive substrings; when no result
qualifies it selects the first result returned; and on zero results it
returns an empty candidate list and a null web link. -/
theorem claim_C7 (data : ITunesData) (title artist country : String) :
    searchITunesLinks (ITunesOutcome.ok data) title artist country =
      (match data.results.getD [] with
       | [] => Except.ok ⟨[], none⟩
       | r0 :: _ =>
         Except.ok (appleOfResult
           (((data.results.getD []).find?
               (itunesQualifies (cleanTrackTitleForSearch title) artist)).getD r0))) := by
  simp only [searchITunesLinks, pickBestLoop_none]
  cases hr : data.results.getD [] with
  | nil => rfl
  | cons r0 rest => rfl

/-! ## Claim C8: the track enumerator -/

/-- The imperative per-item loop accumulates exactly the per-page
filter-map of the specification, in order. -/
theorem trackItemsLoop_eq :
    ∀ (items : List (Option SpotItem)) (acc : List Track),
      trackItemsLoop items acc = acc ++ pageTracks items := by
  intro items
  induction items with
  | nil => intro acc; simp [trackItemsLoop, pageTracks]
  | cons it rest ih =>
    intro acc
    simp only [pageTracks, List.filterMap_cons]
    cases hb : it.bind SpotItem.track with
    | none =>
      simp only [trackItemsLoop, hb, itemToTrack]
      rw [ih]
      rfl
    | some track =>
      cases hn : track.name with
      | none =>
        simp only [trackItemsLoop, hb, hn, itemToTrack]
        rw [ih]
        rfl
      | some title =>
        simp only [trackItemsLoop, hb, hn, itemToTrack]
        split
        · rw [ih]
          simp [pageTracks]
        · rw [ih]
          rfl

/-- The pagination loop with accumulator equals the specification
enumeration prefixed by the accumulator. -/
theorem fetchAllTracksGo_eq :
    ∀ (pages : List PageOutcome) (acc : List Track),
      fetchAllTracksGo pages acc =
        (specEnumerate pages).map (Except.map (fun ts => acc ++ ts)) := by
  intro pages
  induction pages with
  | nil => intro acc; rfl
  | cons p rest ih =>
    intro acc
    cases p with
    | netThrow => rfl
    | notOk => rfl
    | badJson => rfl
    | ok items next =>
      simp only [fetchAllTracksGo, specEnumerate, trackItemsLoop_eq]
      by_cases hn : nextTruthy next = true
      · rw [if_pos hn, if_pos hn, ih]
        cases hs : specEnumerate rest with
        | none => rfl
        | some e =>
          cases e with
          | error u => simp [Except.map]
          | ok ts => simp [Except.map]
      · rw [if_neg hn, if_neg hn]
        simp [Except.map]

/-- C8: the track enumerator equals the specification enumeration: it
follows the next-page cursor until the next field is empty or absent,
skips items whose underlying track is null, joins contributing-artist
names with a comma and space in order, skips entries missing a title or
artist after joining, and concatenates pages in upstream order with no
deduplication and no reordering. -/
theorem claim_C8 (pages : List PageOutcome) :
    fetchAllTracks pages = specEnumerate pages := by
  rw [fetchAllTracks, fetchAllTracksGo_eq]
  cases hs : specEnumerate pages with
  | none => rfl
  | some e =>
    cases e with
    | error u => simp [Except.map]
    | ok ts => simp [Except.map]

/-! ## Claim C4: the short-link expansion step -/

theorem matchCI_some_length :
    ∀ (p l r : List Char), matchCI p l = some r → l.length = p.length + r.length := by
  intro p
  induction p with
  | nil =>
    intro l r h
    simp only [matchCI, Option.some.injEq] at h
    subst h
    simp
  | cons c cs ih =>
    intro l r h
    cases l with
    | nil => simp [matchCI] at h
    | cons d ds =>
      simp only [matchCI] at h
      by_cases hce : c.toLower = d.toLower
      · rw [if_pos hce] at h
        have := ih ds r h
        simp only [List.length_cons]
        omega
      · rw [if_neg hce] at h
        simp at h

theorem matchCI_some_drop :
    ∀ (p l r : List Char), matchCI p l = some r → r = l.drop p.length := by
  intro p
  induction p with
  | nil =>
    intro l r h
    simp only [matchCI, Option.some.injEq] at h
    subst h
    rfl
  | cons c cs ih =>
    intro l r h
    cases l with
    | nil => simp [matchCI] at h
    | cons d ds =>
      simp only [matchCI] at h
      by_cases hce : c.toLower = d.toLower
      · rw [if_pos hce] at h
        exact ih ds r h
      · rw [if_neg hce] at h
        simp at h

theorem bareAt_ne (l m : List Char) (h : bareAt l = some m) : m ≠ [] := by
  unfold bareAt at h
  cases h1 : matchCI litHttpsSpotify l with
  | some rest =>
    rw [h1] at h
    dsimp only at h
    by_cases hrun : (rest.takeWhile bareRunChar).isEmpty = true
    · rw [if_pos hrun] at h
      exact absurd h (by simp)
    · rw [if_neg hrun] at h
      have hm : m = l.take (25 + (rest.takeWhile bareRunChar).length) :=
        (Option.some.injEq _ _).mp h.symm
      subst hm
      have hlen := matchCI_some_length _ _ _ h1
      have h25 : litHttpsSpotify.length = 25 := rfl
      intro hc
      have hz := congrArg List.length hc
      simp only [List.length_take, List.length_nil] at hz
      omega
  | none =>
    rw [h1] at h
    dsimp only at h
    cases h2 : matchCI litHttpSpotify l with
    | some rest =>
      rw [h2] at h
      dsimp only at h
      by_cases hrun : (rest.takeWhile bareRunChar).isEmpty = true
      · rw [if_pos hrun] at h
        exact absurd h (by simp)
      · rw [if_neg hrun] at h
        have hm : m = l.take (24 + (rest.takeWhile bareRunChar).length) :=
          (Option.some.injEq _ _).mp h.symm
        subst hm
        have hlen := matchCI_some_length _ _ _ h2
        have h24 : litHttpSpotify.length = 24 := rfl
        intro hc
        have hz := congrArg List.length hc
        simp only [List.length_take, List.length_nil] at hz
        omega
    | none => rw [h2] at h; exact absurd h (by simp)

theorem scanFirst_bare_ne :
    ∀ (l m : List Char), scanFirst bareAt l = some m → m ≠ [] := by
  intro l
  induction l with
  | nil => intro m h; simp [scanFirst] at h
  | cons c rest ih =>
    intro m h
    simp only [scanFirst] at h
    cases ha : bareAt (c :: rest) with
    | some x =>
      simp only [ha, Option.some.injEq] at h
      subst h
      exact bareAt_ne _ _ ha
    | none =>
      simp only [ha] at h
      exact ih m h

/-- Every bare-URL match has no capture group and a nonempty full match. -/
theorem matchBareSpotify_spec (s : String) (mm : JsMatch)
    (h : matchBareSpotify s = some mm) : mm.group1 = none ∧ mm.matched ≠ "" := by
  simp only [matchBareSpotify, Option.map_eq_some'] at h
  obtain ⟨m, hm, hmm⟩ := h
  subst hmm
  refine ⟨rfl, ?_⟩
  have hne := scanFirst_bare_ne _ _ hm
  intro hc
  apply hne
  have hc2 : String.mk m = "" := hc
  have hd := congrArg String.data hc2
  simpa using hd

theorem metaViable_drop_ne (run : List Char) (j : Nat)
    (h : metaViable run j = true) : run.drop (j + 4) ≠ [] := by
  unfold metaViable at h
  cases h4 : matchCI litUrlEq (run.drop j) with
  | none => rw [h4] at h; exact absurd h (by simp)
  | some after4 =>
    rw [h4] at h
    dsimp only at h
    have hdrop : after4 = run.drop (j + 4) := by
      have h44 := matchCI_some_drop _ _ _ h4
      have hu4 : litUrlEq.length = 4 := rfl
      rw [hu4] at h44
      rw [h44, List.drop_drop]
      all_goals (first | rfl | (congr 1; omega))
    rw [← hdrop]
    cases h5 : matchCI litHttpsSpotify after4 with
    | some r =>
      have hl := matchCI_some_length _ _ _ h5
      have h25 : litHttpsSpotify.length = 25 := rfl
      intro hc
      rw [hc] at hl
      simp only [List.length_nil] at hl
      omega
    | none =>
      rw [h5] at h
      cases h6 : matchCI litHttpSpotify after4 with
      | some r =>
        have hl := matchCI_some_length _ _ _ h6
        have h24 : litHttpSpotify.length = 24 := rfl
        intro hc
        rw [hc] at hl
        simp only [List.length_nil] at hl
        omega
      | none => rw [h6] at h; exact absurd h (by simp)

theorem metaAt_ne (l : List Char) (fg : List Char × List Char)
    (h : metaAt l = some fg) : fg.2 ≠ [] := by
  unfold metaAt at h
  cases h1 : matchCI litContentEq l with
  | none => rw [h1] at h; exact absurd h (by simp)
  | some rest =>
    rw [h1] at h
    dsimp only at h
    cases rest with
    | nil => simp at h
    | cons q rest2 =>
      dsimp only at h
      by_cases hq : (q = '"' || q = '\'') = true
      · rw [if_pos hq] at h
        cases hj : lastViable (rest2.takeWhile (fun c => c ≠ '"' && c ≠ '\'')) with
        | none => rw [hj] at h; exact absurd h (by simp)
        | some j =>
          rw [hj] at h
          have hfg := (Option.some.injEq _ _).mp h.symm
          subst hfg
          have hj2 := hj
          unfold lastViable at hj2
          have hv := List.find?_some hj2
          exact metaViable_drop_ne _ _ hv
      · rw [if_neg hq] at h
        exact absurd h (by simp)

theorem scanFirst_meta_ne :
    ∀ (l : List Char) (fg : List Char × List Char),
      scanFirst metaAt l = some fg → fg.2 ≠ [] := by
  intro l
  induction l with
  | nil => intro fg h; simp [scanFirst] at h
  | cons c rest ih =>
    intro fg h
    simp only [scanFirst] at h
    cases ha : metaAt (c :: rest) with
    | some x =>
      simp only [ha, Option.some.injEq] at h
      subst h
      exact metaAt_ne _ _ ha
    | none =>
      simp only [ha] at h
      exact ih fg h

/-- Every meta-refresh match carries a nonempty capture group. -/
theorem matchMetaRefresh_spec (s : String) (mm : JsMatch)
    (h : matchMetaRefresh s = some mm) :
    ∃ g, mm.group1 = some g ∧ g ≠ "" := by
  simp only [matchMetaRefresh, Option.map_eq_some'] at h
  obtain ⟨fg, hfg, hmm⟩ := h
  subst hmm
  refine ⟨String.mk fg.2, rfl, ?_⟩
  have hne := scanFirst_meta_ne _ _ hfg
  intro hc
  apply hne
  have hc2 : String.mk fg.2 = "" := hc
  have hd := congrArg String.data hc2
  simpa using hd

/-- C4, amended: the expansion step issues (for an allow-listed host) a
single redirect-following GET; it adopts the final response URL when
nonempty; otherwise it scans the body for a bare open-spotify URL first
and for a meta-refresh url parameter second, first match winning; a thrown
fetch or no match returns the input unchanged; no HEAD request, Location
header or window-location scan takes part. -/
theorem claim_C4 (env : ExpandEnv) (input : String) :
    expandSpotifyUrl env input = expandAmended env input := by
  simp only [expandSpotifyUrl, expandAmended]
  by_cases h1 : isNativeUriFull input = true
  · simp [h1]
  · simp only [h1, Bool.false_eq_true, if_false]
    cases hp : env.parseURL input with
    | none => rfl
    | some parsed =>
      by_cases h2 : (SHORT_HOSTS.contains (jsToLower parsed.hostname) ||
          SHORT_HOSTS.contains (stripWww (jsToLower parsed.hostname))) = true
      · simp only [h2, Bool.not_true, Bool.false_eq_true, if_false, if_true]
        cases hnet : env.net ⟨"GET", "follow", parsed.href⟩ with
        | throwErr => rfl
        | resp finalUrl loc body =>
          by_cases h3 : finalUrl = ""
          · subst h3
            simp only [ne_eq, not_true_eq_false, if_false, if_true, reduceIte]
            cases hb : matchBareSpotify body with
            | some mm =>
              obtain ⟨hg, hm⟩ := matchBareSpotify_spec body mm hb
              simp [jsOrMatch, hb, hg, hm]
            | none =>
              cases hmt : matchMetaRefresh body with
              | none => simp [jsOrMatch, hb, hmt]
              | some mm =>
                obtain ⟨g, hg, hne⟩ := matchMetaRefresh_spec body mm hmt
                simp [jsOrMatch, hb, hmt, hg, hne]
          · simp [h3]
      · dsimp only
        have hA : (SHORT_HOSTS.contains (jsToLower parsed.hostname) ||
            SHORT_HOSTS.contains (stripWww (jsToLower parsed.hostname))) = false := by
          first
          | exact Bool.eq_false_iff.mpr h2
          | (cases hcase : (SHORT_HOSTS.contains (jsToLower parsed.hostname) ||
                SHORT_HOSTS.contains (stripWww (jsToLower parsed.hostname))) with
             | false => rfl
             | true => exact absurd hcase h2)
        rw [hA]
        simp

/-- C4, counterexample: in a world where the response has an empty final
URL and the body holds a bare open-spotify URL before a meta-refresh url
parameter naming a different one, the source adopts the bare URL while the
claimed HEAD-first, meta-refresh-first waterfall yields the meta-refresh
target, so the claimed description is not the behaviour of the source. -/
theorem claim_C4_cex :
    (expandSpotifyUrl scanOrderEnv "https://spoti.fi/abc").1 =
      "http://open.spotify.com/A" ∧
    expandSpotifyUrlClaimed scanOrderEnv "https://spoti.fi/abc" =
      "http://open.spotify.com/B" ∧
    (expandSpotifyUrl scanOrderEnv "https://spoti.fi/abc").1 ≠
      expandSpotifyUrlClaimed scanOrderEnv "https://spoti.fi/abc" := by decide

/-! ## Claims C9 and C10: the identifier parsers -/

theorem toList_append (a b : String) : (a ++ b).toList = a.toList ++ b.toList := by
  cases a
  cases b
  rfl

theorem toList_ne_nil (s : String) (h : s ≠ "") : s.toList ≠ [] := by
  intro hc
  apply h
  cases s with
  | mk data =>
    simp only [String.toList] at hc
    subst hc
    rfl

theorem isNativeUriFull_append (id : String) (h1 : id ≠ "")
    (h2 : ∀ c ∈ id.toList, isAsciiAlnum c = true) :
    isNativeUriFull ("spotify:playlist:" ++ id) = true := by
  unfold isNativeUriFull
  rw [toList_append, matchCI_self_append]
  simp only [List.isEmpty_iff, List.all_eq_true, Bool.and_eq_true,
    Bool.not_eq_true', decide_eq_true_eq]
  simp
  exact ⟨toList_ne_nil id h1, h2⟩

theorem matchUriAnchored_append (id : String) (h1 : id ≠ "")
    (h2 : ∀ c ∈ id.toList, isAsciiAlnum c = true) :
    matchUriAnchored ("spotify:playlist:" ++ id) = some id := by
  unfold matchUriAnchored
  rw [toList_append, matchCI_self_append]
  dsimp only
  rw [takeWhile_eq_self_of_all h2]
  rw [if_neg (by simp only [List.isEmpty_iff]; simp; exact toList_ne_nil id h1)]
  rfl

theorem jsSplitChar_no_sep (sep : Char) :
    ∀ l : List Char, (∀ c ∈ l, c ≠ sep) → jsSplitChar sep l = [l] := by
  intro l
  induction l with
  | nil => intro _; rfl
  | cons c rest ih =>
    intro h
    simp only [jsSplitChar]
    rw [if_neg (h c (by simp))]
    rw [ih (fun d hd => h d (by simp [hd]))]

theorem jsSplitChar_sep_append (sep : Char) :
    ∀ (w r : List Char), (∀ c ∈ w, c ≠ sep) →
      jsSplitChar sep (w ++ sep :: r) = w :: jsSplitChar sep r := by
  intro w
  induction w with
  | nil =>
    intro r _
    simp [jsSplitChar]
  | cons a w' ih =>
    intro r h
    simp only [List.cons_append, jsSplitChar, List.append_eq]
    rw [if_neg (h a (by simp))]
    rw [ih r (fun d hd => h d (by simp [hd]))]

theorem jsSplitChar_cons_self (sep : Char) (rest : List Char) :
    jsSplitChar sep (sep :: rest) = [] :: jsSplitChar sep rest := by
  simp only [jsSplitChar]
  simp

theorem scanLitAlnumGo_exact :
    ∀ (lit idl : List Char), lit ≠ [] → idl ≠ [] →
      (∀ x ∈ idl, isAsciiAlnum x = true) →
      scanLitAlnumGo lit (lit ++ idl) = some idl := by
  intro lit idl hlit hid hal
  cases lit with
  | nil => exact absurd rfl hlit
  | cons c cs =>
    rw [List.cons_append]
    have hm : matchCI (c :: cs) (c :: (cs ++ idl)) = some idl := by
      have h0 := matchCI_self_append (c :: cs) idl
      simpa using h0
    simp only [scanLitAlnumGo]
    rw [hm]
    dsimp only
    rw [takeWhile_eq_self_of_all hal]
    rw [if_neg (by simp [List.isEmpty_iff, hid])]

/-- C9: a native URI is returned unchanged by the expansion step with no
network request issued, and the identifier is extracted purely by the
anchored parser. -/
theorem claim_C9 (env : ExpandEnv) (id : String) (h1 : id ≠ "")
    (h2 : ∀ c ∈ id.toList, isAsciiAlnum c = true) :
    expandSpotifyUrl env ("spotify:playlist:" ++ id) =
      ("spotify:playlist:" ++ id, []) ∧
    parseIdFromUrlOrUri env.parseURL ("spotify:playlist:" ++ id) =
      Except.ok id := by
  constructor
  · unfold expandSpotifyUrl
    rw [if_pos (isNativeUriFull_append id h1 h2)]
  · unfold parseIdFromUrlOrUri
    rw [matchUriAnchored_append id h1 h2]

/-- C9, witness: the native URI with identifier ABC123 expands to itself
with no request and parses to ABC123. -/
theorem claim_C9_witness :
    expandSpotifyUrl trivialExpandEnv ("spotify:playlist:" ++ "ABC123") =
      ("spotify:playlist:" ++ "ABC123", []) ∧
    parseIdFromUrlOrUri trivialExpandEnv.parseURL ("spotify:playlist:" ++ "ABC123") =
      Except.ok "ABC123" :=
  claim_C9 trivialExpandEnv "ABC123" (by decide) (by decide)

/-- C10, counterexample: on the path `/playlist/abc-def` the earlier
path-splitting parser returns the whole segment `abc-def` while the
regexp parser returns only the leading alphanumeric run `abc`, so the two
parsers are not equivalent. -/
theorem claim_C10_cex :
    parsePlaylistId hyphenParseURL
        "https://open.spotify.com/playlist/abc-def" = Except.ok "abc-def" ∧
    parseIdFromUrlOrUri hyphenParseURL
        "https://open.spotify.com/playlist/abc-def" = Except.ok "abc" ∧
    ("abc-def" : String) ≠ "abc" := by decide

/-- C10, amended: the two parsers are not equivalent in general, but they
agree on every input with no native-URI occurrence whose parsed path is
`/playlist/` followed by a nonempty wholly alphanumeric token: both return
that token.  They diverge when the token continues with non-alphanumeric
characters such as hyphens (see the counterexample). -/
theorem claim_C10 (id input : String) (parseURL : String → Option URLRec)
    (u : URLRec) (hid : id ≠ "")
    (hal : ∀ c ∈ id.toList, isAsciiAlnum c = true)
    (hnu : scanLitAlnum "spotify:playlist:" input = none)
    (hna : matchUriAnchored input = none)
    (hp : parseURL input = some u)
    (hpath : u.pathname = "/playlist/" ++ id) :
    parsePlaylistId parseURL input = Except.ok id ∧
    parseIdFromUrlOrUri parseURL input = Except.ok id := by
  have hslash : ∀ c ∈ id.toList, c ≠ '/' := by
    intro c hc he
    subst he
    exact absurd (hal '/' hc) (by decide)
  have hdata : ("/playlist/" ++ id).toList = "/playlist/".toList ++ id.toList :=
    toList_append _ _
  constructor
  · unfold parsePlaylistId
    rw [hnu, hp]
    dsimp only
    rw [hpath, hdata]
    have e : "/playlist/".toList ++ id.toList =
        '/' :: ("playlist".toList ++ '/' :: id.toList) := rfl
    rw [e]
    rw [jsSplitChar_cons_self]
    rw [jsSplitChar_sep_append '/' "playlist".toList id.toList (by decide)]
    rw [jsSplitChar_no_sep '/' id.toList hslash]
    simp only [List.map_cons, List.map_nil]
    rw [show segAfterPlaylist
        [String.mk [], String.mk "playlist".toList, String.mk id.toList] =
        some (String.mk id.toList) from by
      simp [segAfterPlaylist]]
    dsimp only
    rw [if_pos (show String.mk id.toList ≠ "" from hid)]
    rfl
  · unfold parseIdFromUrlOrUri
    rw [hna, hp]
    dsimp only
    rw [hpath]
    unfold scanLitAlnum
    rw [hdata]
    rw [scanLitAlnumGo_exact "/playlist/".toList id.toList (by decide)
      (toList_ne_nil id hid) hal]
    rfl

/-- C10, witness: both parsers return ABC123 for the canonical playlist
URL with a wholly alphanumeric token. -/
theorem claim_C10_witness :
    parsePlaylistId plainParseURL
        "https://open.spotify.com/playlist/ABC123" = Except.ok "ABC123" ∧
    parseIdFromUrlOrUri plainParseURL
        "https://open.spotify.com/playlist/ABC123" = Except.ok "ABC123" :=
  claim_C10 "ABC123" "https://open.spotify.com/playlist/ABC123" plainParseURL
    ⟨"open.spotify.com", "/playlist/ABC123",
      "https://open.spotify.com/playlist/ABC123"⟩
    (by decide) (by decide) (by decide) (by decide) (by decide) (by decide)

/-! ## Claims C1 and C2: the handler and its degradation behaviour -/

/-- A failing Bandcamp lookup of any mode (thrown fetch, non-success
status, or a body from which no candidate is extracted) degrades to a null
direct link with the search URL. -/
theorem searchBandcamp_fail (o : BCOutcome) (t a : String)
    (h : o = BCOutcome.throwErr ∨ o = BCOutcome.notOk ∨
      ∃ html, o = BCOutcome.ok html ∧ bandcampCandidates html = []) :
    searchBandcamp o t a = ⟨none, bandcampSearchUrl t a⟩ := by
  rcases h with rfl | rfl | ⟨html, rfl, hc⟩
  · rfl
  · rfl
  · unfold searchBandcamp
    dsimp only
    split
    · rfl
    · rename_i m0 tail hcand
      rw [hc] at hcand
      exact absurd hcand (by simp)

/-- Inversion for the per-track row: a produced row carries the track
fields and the constructed Bandcamp search URL. -/
theorem rowOf_ok_inv (env : PostEnv) (sc : String) (t : Track) (r : ResultRow)
    (h : rowOf env sc t = Except.ok r) :
    r.title = t.title ∧ r.artist = t.artist ∧
    r.links.bandcampSearch = bandcampSearchUrl t.title t.artist := by
  unfold rowOf at h
  split at h
  · exact absurd h (by simp)
  · have hr := (Except.ok.injEq _ _).mp h
    subst hr
    refine ⟨rfl, rfl, ?_⟩
    exact searchBandcamp_search _ _ _

/-- Membership inversion for the row map: every row of a successful map
comes from some input track. -/
theorem mapRows_ok_mem (f : Track → Except Unit ResultRow) :
    ∀ (l : List Track) (out : List ResultRow), mapRows f l = Except.ok out →
      ∀ r ∈ out, ∃ t ∈ l, f t = Except.ok r := by
  intro l
  induction l with
  | nil =>
    intro out h r hr
    simp only [mapRows, Except.ok.injEq] at h
    subst h
    simp at hr
  | cons t rest ih =>
    intro out h r hr
    simp only [mapRows] at h
    cases hf : f t with
    | error e => rw [hf] at h; exact absurd h (by simp)
    | ok r0 =>
      rw [hf] at h
      dsimp only at h
      cases hm : mapRows f rest with
      | error e => rw [hm] at h; exact absurd h (by simp)
      | ok rs =>
        rw [hm] at h
        have hout := (Except.ok.injEq _ _).mp h
        subst hout
        rcases List.mem_cons.mp hr with rfl | hr2
        · exact ⟨t, List.mem_cons_self _ _, hf⟩
        · obtain ⟨t2, ht2, hft2⟩ := ih rs hm r hr2
          exact ⟨t2, List.mem_cons_of_mem _ ht2, hft2⟩

/-- The constructed search URL is never the empty string. -/
theorem bandcampSearchUrl_ne (t a : String) : bandcampSearchUrl t a ≠ "" := by
  unfold bandcampSearchUrl
  intro h
  have hd := congrArg String.toList h
  rw [toList_append, toList_append] at hd
  simp at hd

/-- C2, amended: in every successful response each row carries the
constructed Bandcamp search URL (a nonempty string), so the Bandcamp
search entry is present in every outcome and the Apple side and the
Bandcamp side are never both absent; the Apple side alone can be absent
(see the counterexample). -/
theorem claim_C2 (env : PostEnv) (req : PostReq) (rows : List ResultRow)
    (hs : POST env req = some (PostResponse.success rows)) :
    ∀ r ∈ rows,
      r.links.bandcampSearch = bandcampSearchUrl r.title r.artist ∧
      r.links.bandcampSearch ≠ "" ∧
      ¬(r.links.bandcampSearch = "" ∧ r.links.appleStoreCandidates = [] ∧
        r.links.appleWeb = none) := by
  unfold POST at hs
  dsimp only at hs
  repeat' split at hs
  all_goals cases hs
  intro r hr
  obtain ⟨t, ht, hrow⟩ := mapRows_ok_mem _ _ _ (by assumption) r hr
  obtain ⟨hta, haa, hba⟩ := rowOf_ok_inv _ _ _ _ hrow
  refine ⟨by rw [hta, haa]; exact hba,
    by rw [hba]; exact bandcampSearchUrl_ne _ _,
    fun hc => bandcampSearchUrl_ne t.title t.artist (by rw [← hba]; exact hc.1)⟩

/-- C2, counterexample: a successful single-track response in which the
Apple lookup failed with a non-success status: the row has an empty Apple
candidate list and a null Apple web link, so no fallback entry is present
for the Apple store, refuting per-store presence. -/
theorem claim_C2_cex :
    POST oneTrackEnv nativeUriReq =
      some (PostResponse.success
        [⟨"T1", "A1", ⟨[], none, none, bandcampSearchUrl "T1" "A1"⟩⟩]) ∧
    (⟨"T1", "A1", ⟨[], none, none, bandcampSearchUrl "T1" "A1"⟩⟩ :
        ResultRow).links.appleStoreCandidates = [] ∧
    (⟨"T1", "A1", ⟨[], none, none, bandcampSearchUrl "T1" "A1"⟩⟩ :
        ResultRow).links.appleWeb = none := by decide

/-- C2, witness: the amended theorem applied to the concrete single-track
run. -/
theorem claim_C2_witness :
    (⟨"T1", "A1", ⟨[], none, none, bandcampSearchUrl "T1" "A1"⟩⟩ :
        ResultRow).links.bandcampSearch =
      bandcampSearchUrl
        (⟨"T1", "A1", ⟨[], none, none, bandcampSearchUrl "T1" "A1"⟩⟩ :
          ResultRow).title
        (⟨"T1", "A1", ⟨[], none, none, bandcampSearchUrl "T1" "A1"⟩⟩ :
          ResultRow).artist ∧
    (⟨"T1", "A1", ⟨[], none, none, bandcampSearchUrl "T1" "A1"⟩⟩ :
        ResultRow).links.bandcampSearch ≠ "" ∧
    ¬((⟨"T1", "A1", ⟨[], none, none, bandcampSearchUrl "T1" "A1"⟩⟩ :
        ResultRow).links.bandcampSearch = "" ∧
      (⟨"T1", "A1", ⟨[], none, none, bandcampSearchUrl "T1" "A1"⟩⟩ :
        ResultRow).links.appleStoreCandidates = [] ∧
      (⟨"T1", "A1", ⟨[], none, none, bandcampSearchUrl "T1" "A1"⟩⟩ :
        ResultRow).links.appleWeb = none) :=
  claim_C2 oneTrackEnv nativeUriReq
    [⟨"T1", "A1", ⟨[], none, none, bandcampSearchUrl "T1" "A1"⟩⟩]
    (by decide) _ (by simp)

/-- One extracted item of the degradation scenario. -/
theorem itemToTrack_oneTrack (t : Track) (ha : t.title ≠ "") (hb : t.artist ≠ "") :
    itemToTrack (oneTrackItem t) = some t := by
  unfold itemToTrack oneTrackItem
  dsimp only [Option.bind, Option.getD, List.map, jsJoin]
  rw [if_pos (by simp [ha, hb])]

/-- The row of a track under a degraded Apple lookup and a failing
Bandcamp lookup. -/
theorem rowOf_degraded (env : PostEnv) (sc : String) (t : Track)
    (hi : env.itunes t.title t.artist sc = ITunesOutcome.notOk)
    (hb : env.bc t.title t.artist = BCOutcome.throwErr ∨
      env.bc t.title t.artist = BCOutcome.notOk ∨
      ∃ html, env.bc t.title t.artist = BCOutcome.ok html ∧
        bandcampCandidates html = []) :
    rowOf env sc t = Except.ok (failRow t) := by
  unfold rowOf
  rw [hi]
  have hIT : searchITunesLinks ITunesOutcome.notOk t.title t.artist sc =
      Except.ok ⟨[], none⟩ := rfl
  rw [hIT]
  dsimp only
  rw [searchBandcamp_fail _ _ _ hb]
  rfl

/-- C1, amended: every Bandcamp lookup failure and every Apple lookup
failure with a non-success HTTP status degrade silently; for a playlist
of three tracks where every Apple lookup returns a non-success status and
every Bandcamp lookup fails in any mode, the handler returns a success
response with exactly the three degraded rows, each carrying a non-null
constructed bandcampSearch URL.  A thrown Apple network or JSON-parse
error, by contrast, propagates (see the counterexample). -/
theorem claim_C1 (t1 t2 t3 : Track) (bc : String → String → BCOutcome)
    (h1 : t1.title ≠ "" ∧ t1.artist ≠ "")
    (h2 : t2.title ≠ "" ∧ t2.artist ≠ "")
    (h3 : t3.title ≠ "" ∧ t3.artist ≠ "")
    (hbc : ∀ ti ar, bc ti ar = BCOutcome.throwErr ∨ bc ti ar = BCOutcome.notOk ∨
      ∃ html, bc ti ar = BCOutcome.ok html ∧ bandcampCandidates html = []) :
    POST (threeTrackEnv t1 t2 t3 ITunesOutcome.notOk bc) nativeUriReq =
      some (PostResponse.success [failRow t1, failRow t2, failRow t3]) := by
  have htr : fetchAllTracks (threeTrackEnv t1 t2 t3 ITunesOutcome.notOk bc).pages =
      some (Except.ok [t1, t2, t3]) := by
    show fetchAllTracksGo [PageOutcome.ok
        [oneTrackItem t1, oneTrackItem t2, oneTrackItem t3] none] [] = _
    unfold fetchAllTracksGo
    dsimp only
    rw [show nextTruthy none = false from rfl]
    simp only [Bool.false_eq_true, if_false]
    rw [trackItemsLoop_eq]
    simp only [List.nil_append]
    unfold pageTracks
    rw [show ([oneTrackItem t1, oneTrackItem t2, oneTrackItem t3].filterMap
        itemToTrack) = [t1, t2, t3] from by
      simp [List.filterMap_cons, itemToTrack_oneTrack t1 h1.1 h1.2,
        itemToTrack_oneTrack t2 h2.1 h2.2, itemToTrack_oneTrack t3 h3.1 h3.2]]
  have hrow : ∀ t : Track, rowOf (threeTrackEnv t1 t2 t3 ITunesOutcome.notOk bc)
      "US" t = Except.ok (failRow t) := by
    intro t
    exact rowOf_degraded _ _ _ rfl (hbc t.title t.artist)
  have hmap : mapRows (rowOf (threeTrackEnv t1 t2 t3 ITunesOutcome.notOk bc) "US")
      [t1, t2, t3] = Except.ok [failRow t1, failRow t2, failRow t3] := by
    simp [mapRows, hrow]
  unfold POST
  dsimp only [nativeUriReq]
  rw [if_neg (by decide)]
  rw [show expandSpotifyUrl (threeTrackEnv t1 t2 t3 ITunesOutcome.notOk bc).expand
      "spotify:playlist:abc123" = ("spotify:playlist:abc123", []) from rfl]
  rw [show parseIdFromUrlOrUri
      (threeTrackEnv t1 t2 t3 ITunesOutcome.notOk bc).expand.parseURL
      "spotify:playlist:abc123" = Except.ok "abc123" from rfl]
  dsimp only [Except.toOption]
  rw [show getSpotifyAppToken (threeTrackEnv t1 t2 t3 ITunesOutcome.notOk bc).token =
      Except.ok "token" from rfl]
  rw [htr]
  dsimp only
  rw [show jsToUpper (if ("US" : String) ≠ "" then "US" else "US") = "US" from by decide]
  rw [hmap]

/-- C1, witness: the amended theorem at three concrete tracks with every
Bandcamp fetch thrown and every Apple lookup failing with a non-success
status. -/
theorem claim_C1_witness :
    POST (threeTrackEnv ⟨"T1", "A1"⟩ ⟨"T2", "A2"⟩ ⟨"T3", "A3"⟩
        ITunesOutcome.notOk (fun _ _ => BCOutcome.throwErr)) nativeUriReq =
      some (PostResponse.success
        [failRow ⟨"T1", "A1"⟩, failRow ⟨"T2", "A2"⟩, failRow ⟨"T3", "A3"⟩]) :=
  claim_C1 ⟨"T1", "A1"⟩ ⟨"T2", "A2"⟩ ⟨"T3", "A3"⟩ (fun _ _ => BCOutcome.throwErr)
    (by decide) (by decide) (by decide) (fun _ _ => Or.inl rfl)

/-- C1, counterexample: for the same three-track playlist, when every
Apple lookup fails with a thrown network error (and every Bandcamp lookup
throws), the handler does not return a success response with three rows:
the thrown Apple error propagates out of the per-track lookup and the
handler returns a 500 error response. -/
theorem claim_C1_cex :
    POST (threeTrackEnv ⟨"T1", "A1"⟩ ⟨"T2", "A2"⟩ ⟨"T3", "A3"⟩
        ITunesOutcome.netThrow (fun _ _ => BCOutcome.throwErr)) nativeUriReq =
      some (PostResponse.failure 500) := by decide

end Spotify
